import Mathlib

/-!
Verification of the heuristic signal-extraction and scoring engine of the
longform script builder (src/app/longform_gui.py).

Texts are shallowly embedded as lists of characters (`Text`); Python's
`str` values are written with `".....".data`.  Python floats are embedded
as rationals (`ℚ`), and the regular expressions of the source are embedded
as explicit scanners over character lists.  Python's `str.lower` is
embedded as `Char.toLower` per character (ASCII lowercasing; the special
Unicode casings of CPython do not touch the digit/Latin/Hangul alphabet the
tokenizer keeps).  Python's `\w`, `\s` and `\d` character classes are
embedded over the same alphabet (ASCII plus Hangul syllables).
-/

/-- A Python string, embedded as its list of characters. -/
abbrev Text := List Char

/-- Whitespace, as Python's `str.split` / `strip` / regex `\s` see it
(ASCII fragment). -/
def isSpaceChar (c : Char) : Bool :=
  c = ' ' || c = '\t' || c = '\n' || c = '\r' || c = '\x0b' || c = '\x0c'

/-- A precomposed Hangul syllable, the `가-힣` range of the source's regexes. -/
def isHangulSyllable (c : Char) : Bool :=
  0xAC00 ≤ c.toNat && c.toNat ≤ 0xD7A3

/-- A character kept by `tokenize_korean`'s substitution: `[0-9A-Za-z가-힣]`. -/
def isKeptChar (c : Char) : Bool :=
  c.isDigit || c.isAlpha || isHangulSyllable c

/-- A word character of the regex `\b` boundary (`\w`): alphanumeric,
underscore, or Hangul, on the alphabet this program works over. -/
def isWordChar (c : Char) : Bool :=
  c.isAlphanum || c = '_' || isHangulSyllable c

/-- Embeds `re.sub(r"[^0-9A-Za-z가-힣\s]", " ", text)`: every character that
is neither kept nor whitespace becomes a space. -/
def scrub (t : Text) : Text :=
  t.map fun c => if isKeptChar c || isSpaceChar c then c else ' '

/-- Embeds `text.split()` composed with the source's `if t` filter: chop at
every whitespace character and drop the empty chunks, leaving the maximal
runs of non-whitespace characters in order. -/
def splitWs (t : Text) : List Text :=
  (t.splitOnP isSpaceChar).filter fun w => !w.isEmpty

/-- Embeds `tokenize_korean` (longform_gui.py line 42): substitute the
non-alphabet characters by spaces, then split on whitespace. -/
def tokenize_korean (t : Text) : List Text := splitWs (scrub t)

/-- Embeds `word_count` (line 47). -/
def word_count (t : Text) : ℕ := (tokenize_korean t).length

/-- Embeds `text.lower()` characterwise. -/
def lowerText (t : Text) : Text := t.map Char.toLower

/-- Embeds `KOREAN_STOPWORDS` (line 37); the source list repeats "하지만",
which the Python set collapses, so membership is unchanged. -/
def KOREAN_STOPWORDS : List Text :=
  ["그리고".data, "그러나".data, "하지만".data, "또한".data, "그래서".data,
   "하지만".data, "그런데".data, "또".data, "또는".data, "혹은".data,
   "이것".data, "저것".data, "그것".data, "정말".data, "진짜".data,
   "약간".data, "좀".data, "너무".data, "그냥".data, "이번".data,
   "오늘".data, "영상".data, "시간".data, "여러분".data]

/-- A token `top_keywords` counts: not a stopword and of length at least 2
(the source skips tokens with `len(t) <= 1`). -/
def eligibleTok (w : Text) : Bool :=
  !(KOREAN_STOPWORDS.contains w) && decide (2 ≤ w.length)

/-- One step of the frequency dictionary `freq[t] = freq.get(t, 0) + 1`:
increment the token's entry in place, or append a fresh entry, preserving
first-occurrence (insertion) order like a Python dict. -/
def bump : List (Text × ℕ) → Text → List (Text × ℕ)
  | [], w => [(w, 1)]
  | (v, c) :: rest, w =>
    if v = w then (v, c + 1) :: rest else (v, c) :: bump rest w

/-- The frequency dictionary of a token list, as an association list in
insertion order. -/
def freqListOf (ws : List Text) : List (Text × ℕ) := ws.foldl bump []

/-- Strict lexicographic order on texts by code point, as Python compares
strings. -/
def lexLt : Text → Text → Bool
  | _, [] => false
  | [], _ :: _ => true
  | a :: as, b :: bs => if a < b then true else if b < a then false else lexLt as bs

/-- The sort key of `sorted(freq.items(), key=lambda x: (-x[1], x[0]))`:
`p` comes no later than `q` iff `p` has the larger count, or equal counts
and a lexicographically no-larger word. -/
def keyRel (p q : Text × ℕ) : Prop :=
  q.2 < p.2 ∨ (p.2 = q.2 ∧ (p.1 = q.1 ∨ lexLt p.1 q.1 = true))

instance : DecidableRel keyRel := fun p q => by
  unfold keyRel; exact inferInstance

instance : IsTotal (Text × ℕ) keyRel :=
  ⟨by
    intro p q
    rcases Nat.lt_trichotomy p.2 q.2 with h | h | h
    · exact Or.inr (Or.inl h)
    · have tot : ∀ u v : Text, lexLt u v = true ∨ u = v ∨ lexLt v u = true := by
        intro u
        induction u with
        | nil =>
          intro v; cases v with
          | nil => exact Or.inr (Or.inl rfl)
          | cons b bs => exact Or.inl rfl
        | cons a as ih =>
          intro v; cases v with
          | nil => exact Or.inr (Or.inr rfl)
          | cons b bs =>
            rcases lt_trichotomy a b with hc | hc | hc
            · exact Or.inl (by simp [lexLt, hc])
            · subst hc
              rcases ih bs with h1 | h1 | h1
              · exact Or.inl (by simp [lexLt, h1])
              · exact Or.inr (Or.inl (by rw [h1]))
              · exact Or.inr (Or.inr (by simp [lexLt, h1]))
            · exact Or.inr (Or.inr (by simp [lexLt, hc]))
      rcases tot p.1 q.1 with h1 | h1 | h1
      · exact Or.inl (Or.inr ⟨h, Or.inr h1⟩)
      · exact Or.inl (Or.inr ⟨h, Or.inl h1⟩)
      · exact Or.inr (Or.inr ⟨h.symm, Or.inr h1⟩)
    · exact Or.inl (Or.inl h)⟩

instance : IsTrans (Text × ℕ) keyRel :=
  ⟨by
    have ltrans : ∀ u v w : Text,
        lexLt u v = true → lexLt v w = true → lexLt u w = true := by
      intro u
      induction u with
      | nil =>
        intro v w huv hvw
        cases w with
        | nil => cases v with
          | nil => exact huv
          | cons b bs => simp [lexLt] at hvw
        | cons c cs => rfl
      | cons a as ih =>
        intro v w huv hvw
        cases v with
        | nil => simp [lexLt] at huv
        | cons b bs =>
          cases w with
          | nil => simp [lexLt] at hvw
          | cons c cs =>
            simp only [lexLt] at huv hvw ⊢
            rcases lt_trichotomy a b with hab | hab | hab
            · rcases lt_trichotomy b c with hbc | hbc | hbc
              · simp [lt_trans hab hbc]
              · subst hbc; simp [hab]
              · exfalso; simp [hbc, asymm hbc] at hvw
            · subst hab
              rcases lt_trichotomy a c with hac | hac | hac
              · simp [hac]
              · subst hac
                simp [lt_irrefl] at huv hvw ⊢
                exact ih _ _ huv hvw
              · exfalso; simp [hac, asymm hac] at hvw
            · exfalso; simp [hab, asymm hab] at huv
    intro p q r hpq hqr
    rcases hpq with h1 | ⟨h1, h1w⟩
    · rcases hqr with h2 | ⟨h2, _⟩
      · exact Or.inl (lt_trans h2 h1)
      · exact Or.inl (h2 ▸ h1)
    · rcases hqr with h2 | ⟨h2, h2w⟩
      · exact Or.inl (h1 ▸ h2)
      · refine Or.inr ⟨h1.trans h2, ?_⟩
        rcases h1w with he | hl
        · rcases h2w with he2 | hl2
          · exact Or.inl (he.trans he2)
          · exact Or.inr (he ▸ hl2)
        · rcases h2w with he2 | hl2
          · exact Or.inr (he2 ▸ hl)
          · exact Or.inr (ltrans _ _ _ hl hl2)⟩

/-- Embeds `top_keywords` (line 64): lower-case, tokenize, drop stopwords
and length-1 tokens, count, sort by descending count with ascending
lexicographic tie-break, keep the first `k` words.  `List.insertionSort` is
stable, like Python's `sorted`. -/
def top_keywords (text : Text) (k : ℕ) : List Text :=
  let toks := tokenize_korean (lowerText text)
  let freq := freqListOf (toks.filter eligibleTok)
  ((List.insertionSort keyRel freq).take k).map Prod.fst

/-- The ranking stage of `top_keywords` alone: the words of a frequency
table in the order `sorted(freq.items(), key=lambda x: (-x[1], x[0]))`
produces them. -/
def ranked_keywords (freq : List (Text × ℕ)) : List Text :=
  (List.insertionSort keyRel freq).map Prod.fst

/-- Embeds `" ".join(words)` (and with other separators, `sep.join`). -/
def joinWith (sep : Text) : List Text → Text
  | [] => []
  | [w] => w
  | w :: ws => w ++ sep ++ joinWith sep ws

/-- Space-join of a keyword list: the "output-derived text" a re-run of
`top_keywords` is fed. -/
def joinWords (ws : List Text) : Text := joinWith " ".data ws

/-- Embeds `safe_div` (line 50): Python's `a / b if b else default`, on the
rational embedding of floats. -/
def safe_div (a b default : ℚ) : ℚ :=
  if b ≠ 0 then a / b else default

/-- Round half to even at integer precision, as Python's `round` resolves
ties. -/
def round_half_even (x : ℚ) : ℤ :=
  let f := ⌊x⌋
  let r := x - (f : ℚ)
  if r < 1 / 2 then f
  else if 1 / 2 < r then f + 1
  else if Even f then f else f + 1

/-- Embeds `round(x, d)` on the rational embedding of floats. -/
def round_to (d : ℕ) (x : ℚ) : ℚ :=
  (round_half_even (x * 10 ^ d) : ℚ) / 10 ^ d

/-- Embeds Python's `str.strip()`: drop leading and trailing whitespace. -/
def stripText (t : Text) : Text :=
  ((t.dropWhile isSpaceChar).reverse.dropWhile isSpaceChar).reverse

/-- Embeds Python's substring test `sub in t`. -/
def containsSub (t sub : Text) : Bool :=
  (List.range (t.length + 1)).any fun i => sub.isPrefixOf (t.drop i)

/-- The duration units of the regexes `(초|분|시간|일|주|개월|년)`. -/
def DURATION_UNITS : List Text :=
  ["초".data, "분".data, "시간".data, "일".data, "주".data, "개월".data, "년".data]

/-- Position `i` of `t` sits at a `\b` boundary on its left: start of text,
or a non-word character just before. -/
def boundaryBefore (t : Text) (i : ℕ) : Bool :=
  match i with
  | 0 => true
  | j + 1 =>
    match t.get? j with
    | some c => !isWordChar c
    | none => true

/-- Position `p` of `t` sits at a `\b` boundary on its right: end of text,
or a non-word character at `p`. -/
def boundaryAfterAt (t : Text) (p : ℕ) : Bool :=
  match t.get? p with
  | some c => !isWordChar c
  | none => true

/-- Embeds `re.search(r"\b\d+\s*(초|분|시간|일|주|개월|년)\b", t) is not None`:
at some boundary-preceded position a maximal run of digits starts, followed
(after a run of whitespace) by a duration unit at a boundary.  The maximal
runs are equivalent to the regex's backtracking search because no unit
starts with a digit or a whitespace character. -/
def hasNumDuration (t : Text) : Bool :=
  (List.range t.length).any fun i =>
    boundaryBefore t i &&
      (let rest := t.drop i
       let ds := (rest.takeWhile Char.isDigit).length
       decide (0 < ds) &&
         (let rest2 := rest.drop ds
          let ss := (rest2.takeWhile isSpaceChar).length
          let rest3 := rest2.drop ss
          DURATION_UNITS.any fun u =>
            u.isPrefixOf rest3 && boundaryAfterAt t (i + ds + ss + u.length)))

/-- The "강한감정" keyword set of `detect_hook`. -/
def STRONG_EMOTION_KWS : List Text :=
  ["충격".data, "소름".data, "몰랐던".data, "반전".data, "최강".data, "필수".data]

/-- The "대비/갈등" keyword set of `detect_hook`. -/
def CONTRAST_KWS : List Text :=
  ["하지만".data, "문제는".data, "대신".data, "vs".data, "반면".data]

/-- The "시청자호출" keyword set of `detect_hook`. -/
def AUDIENCE_KWS : List Text :=
  ["여러분".data, "당신".data, "지금".data, "꼭".data]

/-- The "약속/혜택" keyword set of `detect_hook`. -/
def PROMISE_KWS : List Text :=
  ["방법".data, "꿀팁".data, "비법".data, "정리".data, "가이드".data, "무료".data]

/-- The five named hook signals of `detect_hook` (line 75), evaluated over
the snippet the function scans. -/
def hookSignals (snippet : Text) : List (Text × Bool) :=
  [("숫자/기간".data, hasNumDuration snippet),
   ("강한감정".data, STRONG_EMOTION_KWS.any (containsSub snippet)),
   ("대비/갈등".data, CONTRAST_KWS.any (containsSub snippet)),
   ("시청자호출".data, AUDIENCE_KWS.any (containsSub snippet)),
   ("약속/혜택".data, PROMISE_KWS.any (containsSub snippet))]

/-- The record `detect_hook` returns; `signals` keeps the dict's five
distinct keys in insertion order. -/
structure HookResult where
  hook_preview : Text
  signals : List (Text × Bool)
  score_5 : ℕ
deriving DecidableEq

/-- Embeds `detect_hook` (line 73): the scanned snippet is the first 400
characters of the *stripped* script; the score counts the true signals. -/
def detect_hook (script_text : Text) : HookResult :=
  let first_200 := (stripText script_text).take 400
  let signals := hookSignals first_200
  { hook_preview :=
      (first_200.map fun c => if c = '\n' then ' ' else c).take 120 ++
        (if 120 < first_200.length then "...".data else []),
    signals := signals,
    score_5 := signals.countP fun p => p.2 }

/-- The "power word" list of `title_analysis` (line 97). -/
def POWER_WORDS : List Text :=
  ["충격".data, "공개".data, "비밀".data, "실험".data, "테스트".data,
   "가이드".data, "꿀팁".data, "완벽".data, "긴급".data, "주의".data]

/-- Embeds `re.search(r"\d+", title) is not None`: some digit occurs. -/
def hasDigit (t : Text) : Bool := t.any Char.isDigit

/-- Embeds `re.search(r"\b(...unit...)\b", t) is not None` for one unit `u`:
`u` occurs at a position with `\b` boundaries on both sides. -/
def hasWordBounded (t : Text) (u : Text) : Bool :=
  (List.range (t.length + 1)).any fun i =>
    boundaryBefore t i && u.isPrefixOf (t.drop i) && boundaryAfterAt t (i + u.length)

/-- The record `title_analysis` returns. -/
structure TitleResult where
  keywords : List Text
  has_number : Bool
  has_duration : Bool
  power_words_hit : ℕ
  specificity_score_0_4 : ℕ
deriving DecidableEq

/-- Embeds `title_analysis` (line 93). -/
def title_analysis (title : Text) : TitleResult :=
  let kws := top_keywords title 10
  let has_number := hasDigit title
  let has_duration := DURATION_UNITS.any (hasWordBounded title)
  let power_hit := POWER_WORDS.countP (containsSub title)
  { keywords := kws,
    has_number := has_number,
    has_duration := has_duration,
    power_words_hit := power_hit,
    specificity_score_0_4 :=
      ((if has_number then 1 else 0) + (if has_duration then 1 else 0)) +
        min power_hit 2 }

/-- The record `pacing_analysis` returns. -/
structure PacingResult where
  words : ℕ
  wpm : ℚ
  pacing_comment : Text
deriving DecidableEq

/-- Embeds `pacing_analysis` (line 114): words per minute with the
zero-seconds guard, the band comment, and the wpm rounded to one decimal. -/
def pacing_analysis (seconds : ℕ) (script_text : Text) : PacingResult :=
  let words := word_count script_text
  let wpm := safe_div (words : ℚ) ((seconds : ℚ) / 60) 0
  let pace :=
    if wpm < 120 then "느림(서사/설명형 적합)".data
    else if wpm < 160 then "적정(대부분의 정보/교육형)".data
    else if wpm < 200 then "조금 빠름(엔터테인/하이라이트)".data
    else "매우 빠름(과밀 가능)".data
  { words := words, wpm := round_to 1 wpm, pacing_comment := pace }

/-- The record `engagement_metrics` returns. -/
structure EngagementResult where
  engagement_rate : ℚ
  tier : Text
deriving DecidableEq

/-- Embeds `engagement_metrics` (line 123): rate `likes/views` with the
zero-views guard, tier thresholds at 1% and 5%, rate rounded to 4 places. -/
def engagement_metrics (views likes : ℕ) : EngagementResult :=
  let er := safe_div (likes : ℚ) (views : ℚ) 0
  let tier :=
    if er < 1 / 100 then "낮음(<1%)".data
    else if 5 / 100 ≤ er then "높음(5%+)".data
    else "보통(1~4%)".data
  { engagement_rate := round_to 4 er, tier := tier }

/-- Embeds the dataclass `ReferenceVideoInput` (line 27); the counts are
non-negative integers per the data model. -/
structure ReferenceVideoInput where
  views : ℕ
  likes : ℕ
  seconds : ℕ
  title : Text
  thumbnail : Text
  script_text : Text
deriving DecidableEq

/-- Embeds `BASE_ANGLES` (line 177): ten (angle name, angle description)
pairs, in order. -/
def BASE_ANGLES : List (Text × Text) :=
  [("실험/챌린지".data, "정해진 시간/예산/도구 제한으로 실험".data),
   ("룰브레이킹".data, "통념/잘못된 루틴을 깨고 검증".data),
   ("집중공략".data, "한 요소만 극한으로 최적화".data),
   ("케이스스터디".data, "성공/실패 사례를 해부".data),
   ("스토리텔링".data, "개인사/갈등-반전 구조".data),
   ("비교/대결".data, "A/B 대결과 승자 선정".data),
   ("트러블슈팅".data, "실패 원인 10가지와 해결".data),
   ("원리/해부".data, "메커니즘/심리학으로 설명".data),
   ("속도런".data, "X분만에 결과 내기".data),
   ("미니시리즈".data, "Part1~3 연속 구성".data)]

/-- Embeds `DIFF_VAULT` (line 190): ten differentiators, in order. -/
def DIFF_VAULT : List Text :=
  ["현장 오디오+자막 동시 노출".data,
   "댓글 미션 채택 후 실험".data,
   "장비 1개만 허용".data,
   "예산 상한선 1만원".data,
   "주요 장면은 2배속 타임랩스".data,
   "실패율 공개(%)와 재도전".data,
   "전문가/비전문가 동시 테스트".data,
   "청각/무자막 접근성 버전 동시 제공".data,
   "챕터별 체크리스트 PDF 제공".data,
   "실시간 타이머/카운터 노출".data]

/-- The four-element phrasing-variant list inlined in `generate_ideas`
(line 209). -/
def PHRASE_VARIANTS : List Text :=
  ["다르게".data, "극한으로".data, "반대로".data, "제로베이스".data]

/-- One generated idea record (the dict with keys `idea_title`, `concept`,
`logline`). -/
structure Idea where
  idea_title : Text
  concept : Text
  logline : Text
deriving DecidableEq

/-- The idea `generate_ideas` builds at index `i` from the merged keyword
list, with the three f-strings of lines 209-211. -/
def idea_of (base_kw : List Text) (i : ℕ) : Idea :=
  let angle := BASE_ANGLES.getD (i % BASE_ANGLES.length) ([], [])
  let diff := DIFF_VAULT.getD (i % DIFF_VAULT.length) []
  { idea_title :=
      "[".data ++ angle.1 ++ "] ".data ++ joinWith ", ".data (base_kw.take 3) ++
        "를 ".data ++ PHRASE_VARIANTS.getD (i % 4) [] ++ " 해봤다".data,
    concept := angle.2 ++ " + 차별포인트: ".data ++ diff,
    logline :=
      "레퍼런스의 핵심 주제(".data ++ joinWith ", ".data base_kw ++
        ")를 유지하되, ".data ++ angle.1 ++ " 톤으로 전개. ".data ++ diff ++
        " 적용.".data }

/-- Embeds `generate_ideas` (line 203): top 6 keywords of
`title + " " + script_text`, then one idea per index `0..n-1`. -/
def generate_ideas (ref : ReferenceVideoInput) (n : ℕ) : List Idea :=
  let base_kw := top_keywords (ref.title ++ " ".data ++ ref.script_text) 6
  (List.range n).map (idea_of base_kw)

/-- Embeds `auto_outline_from_idea` (line 215): the fixed six-stage default
outline (the argument is unused by the source, too). -/
def auto_outline_from_idea (idea_title : Text) : List Text :=
  ["Hook(문제 제기/약속)".data,
   "컨텍스트(대상/조건 명시)".data,
   "본 실험/전개(파트1)".data,
   "본 실험/전개(파트2)".data,
   "결과/교훈".data,
   "CTA(구독/댓글 유도)".data]

/-- Embeds the `persona_openers` dict lookup with its `.get` fallback
(line 234). -/
def persona_openers (speaker : Text) : Text :=
  if speaker = "전문가".data then "정확한 데이터와 근거로 안내할게요.".data
  else if speaker = "친구".data then "솔직하게, 편하게 이야기해볼게요.".data
  else if speaker = "엄마 크리에이터".data then
    "생활 감각으로 딱 필요한 부분만 콕 집어줄게요.".data
  else if speaker = "교사".data then "핵심만 단계별로 정리해 드릴게요.".data
  else if speaker = "리포터".data then "현장감 있게 빠르게 전달합니다.".data
  else "톤은 자연스럽고 명료합니다.".data

/-- The lines one chapter contributes in `generate_script`'s loop
(lines 243-264): the numbered chapter header, then content dispatched on
the chapter label (chapter 1 always gets the persona opener). -/
def chapter_block (speaker opener title : Text) (idx : ℕ) (ch : Text) : List Text :=
  ("\n### 챕터 ".data ++ (toString idx).data ++ ". ".data ++ ch) ::
    (if idx = 1 then
      ["내레이션: (".data ++ speaker ++ ") ".data ++ opener ++ " 오늘은 '".data ++
         title ++ "' 컨셉으로, 실행하면 바로 효과를 확인할 수 있게 준비했어요.".data,
       "화면: 강한 B-roll/텍스트 오버레이로 핵심 약속 1문장.".data]
    else if containsSub ch "컨텍스트".data || containsSub ch "컨텍".data then
      ["내레이션: 대상, 조건, 제한(시간/예산/장비 1개)을 명확히 선언합니다.".data,
       "화면: 자막으로 조건 요약, 테이블 그래픽 3줄.".data]
    else if containsSub ch "본 실험".data || containsSub ch "전개".data ||
        containsSub ch "파트".data then
      ["내레이션: 단계별 진행—문제→시도→관찰→메모. 실패 포인트는 즉시 표시.".data,
       "화면: 멀티캠 컷, 실시간 타이머, 체크리스트 팝업.".data,
       "현장 오디오: 주요 반응은 라이브로 살립니다.".data]
    else if containsSub ch "결과".data || containsSub ch "교훈".data ||
        containsSub ch "정리".data then
      ["내레이션: 핵심 인사이트 3개를 숫자로 요약. (비용, 시간, 성공률)".data,
       "화면: 전/후 비교 2분할, 그래프/숫자 카운터.".data,
       "한줄결론: 초보는 A부터, 숙련은 B 조합이 최적.".data]
    else if containsSub ch "CTA".data then
      ["내레이션: '여러분 경험은 어땠나요? 다음엔 무엇을 깰까요?' 댓글 미션 제시.".data,
       "화면: 구독/알림/관련 영상 2개 카드.".data]
    else
      ["내레이션: 이 챕터의 포인트를 2~3문장으로 또박또박 전달.".data,
       "화면: 키워드 2개만 큰 자막으로.".data])

/-- The `lines` list `generate_script` accumulates before joining: the
header block, then each chapter's block with 1-based indices.  The Idea
record always carries its fields, so the source's `idea.get(key, default)`
reads are field reads here. -/
def script_lines (idea : Idea) (speaker : Text) (chapters : List Text)
    (filming_style : Text) : List Text :=
  let title := idea.idea_title
  let opener := persona_openers speaker
  ["# 최종 대본: ".data ++ title ++ "\n".data,
   "## 연출 톤: ".data ++ filming_style,
   "## 화자 페르소나: ".data ++ speaker,
   "## 로그라인: ".data ++ idea.logline ++ "\n".data] ++
    (chapters.enumFrom 1).flatMap fun p => chapter_block speaker opener title p.1 p.2

/-- Embeds `generate_script` (line 225): `"\n".join(lines)`. -/
def generate_script (idea : Idea) (speaker : Text) (chapters : List Text)
    (filming_style : Text) : Text :=
  joinWith "\n".data (script_lines idea speaker chapters filming_style)

/-- Embeds the chapter fallback of `App.build_script` (lines 474-476)
composed with `generate_script`: an empty chapter list is replaced by the
fixed default outline before assembly. -/
def build_script (idea : Idea) (speaker : Text) (chapters : List Text)
    (filming_style : Text) : Text :=
  generate_script idea speaker
    (if chapters.isEmpty then auto_outline_from_idea idea.idea_title else chapters)
    filming_style

/-- Modelled from the spec: a decoded pixel grid (the repository's files
hold only the description-based `thumbnail_analysis`; the Pixel Salience
Estimator of spec §4.4 that consumes raw pixels is not among them, so it is
modelled from the spec's steps).  Channels are reals; `pix i j` is the
`(R, G, B)` triple of row `i`, column `j`. -/
structure Image where
  h : ℕ
  w : ℕ
  pix : ℕ → ℕ → ℝ × ℝ × ℝ

/-- Modelled from the spec: a valid decoded image has positive dimensions
and channel values in `[0,1]`. -/
def validImage (img : Image) : Prop :=
  0 < img.h ∧ 0 < img.w ∧
    ∀ i j, i < img.h → j < img.w →
      (0 ≤ (img.pix i j).1 ∧ (img.pix i j).1 ≤ 1) ∧
        (0 ≤ (img.pix i j).2.1 ∧ (img.pix i j).2.1 ≤ 1) ∧
          (0 ≤ (img.pix i j).2.2 ∧ (img.pix i j).2.2 ≤ 1)

/-- The pixel coordinate grid of an image. -/
def Image.grid (img : Image) : Finset (ℕ × ℕ) :=
  Finset.range img.h ×ˢ Finset.range img.w

/-- Modelled from the spec (step 1): luma `0.2126*R + 0.7152*G + 0.0722*B`. -/
noncomputable def luma (img : Image) (i j : ℕ) : ℝ :=
  0.2126 * (img.pix i j).1 + 0.7152 * (img.pix i j).2.1 + 0.0722 * (img.pix i j).2.2

/-- Mean of a per-pixel quantity over the grid. -/
noncomputable def meanOver (img : Image) (f : ℕ → ℕ → ℝ) : ℝ :=
  (∑ p ∈ img.grid, f p.1 p.2) / (img.h * img.w : ℕ)

/-- Population standard deviation of a per-pixel quantity over the grid. -/
noncomputable def stdOver (img : Image) (f : ℕ → ℕ → ℝ) : ℝ :=
  Real.sqrt (meanOver img fun i j => (f i j - meanOver img f) ^ 2)

/-- Modelled from the spec (step 2): contrast metric `stddev(luma) * 100`. -/
noncomputable def contrast_std (img : Image) : ℝ := stdOver img (luma img) * 100

/-- Luma sampled at signed coordinates with edge-replicated padding. -/
noncomputable def lumaPad (img : Image) (a b : ℤ) : ℝ :=
  luma img (max 0 (min a ((img.h : ℤ) - 1))).toNat (max 0 (min b ((img.w : ℤ) - 1))).toNat

/-- The 3×3 Sobel `Gx` kernel `[[1,0,-1],[2,0,-2],[1,0,-1]]` at offsets in
`{0,1,2}²`. -/
def sobelX : ℕ → ℕ → ℝ
  | 0, 0 => 1 | 0, 2 => -1
  | 1, 0 => 2 | 1, 2 => -2
  | 2, 0 => 1 | 2, 2 => -1
  | _, _ => 0

/-- The transposed-rotated Sobel `Gy` kernel. -/
def sobelY (a b : ℕ) : ℝ := sobelX b a

/-- Modelled from the spec (step 3): the horizontal gradient at one pixel. -/
noncomputable def gradX (img : Image) (i j : ℕ) : ℝ :=
  ∑ d ∈ Finset.range 3 ×ˢ Finset.range 3,
    sobelX d.1 d.2 * lumaPad img ((i : ℤ) + d.1 - 1) ((j : ℤ) + d.2 - 1)

/-- Modelled from the spec (step 3): the vertical gradient at one pixel. -/
noncomputable def gradY (img : Image) (i j : ℕ) : ℝ :=
  ∑ d ∈ Finset.range 3 ×ˢ Finset.range 3,
    sobelY d.1 d.2 * lumaPad img ((i : ℤ) + d.1 - 1) ((j : ℤ) + d.2 - 1)

/-- Modelled from the spec (step 3): gradient magnitude `sqrt(Gx²+Gy²)`. -/
noncomputable def gradMag (img : Image) (i j : ℕ) : ℝ :=
  Real.sqrt (gradX img i j ^ 2 + gradY img i j ^ 2)

open Classical in
/-- Fraction of pixels satisfying a predicate. -/
noncomputable def fracOver (img : Image) (P : ℕ → ℕ → Prop) : ℝ :=
  (img.grid.filter (fun p : ℕ × ℕ => P p.1 p.2)).card / (img.h * img.w : ℕ)

/-- Modelled from the spec (step 4): the adaptive edge threshold
`max(0.2, mean(gradient) + 1.5*stddev(gradient))`. -/
noncomputable def edgeThr (img : Image) : ℝ :=
  max 0.2 (meanOver img (gradMag img) + 1.5 * stdOver img (gradMag img))

/-- Modelled from the spec (step 4): the fraction of pixels whose gradient
magnitude exceeds the adaptive threshold. -/
noncomputable def edge_density (img : Image) : ℝ :=
  fracOver img fun i j => edgeThr img < gradMag img i j

/-- Modelled from the spec (step 5): fraction of luma above 0.85. -/
noncomputable def white_ratio (img : Image) : ℝ :=
  fracOver img fun i j => 0.85 < luma img i j

/-- Modelled from the spec (step 5): fraction of luma below 0.15. -/
noncomputable def black_ratio (img : Image) : ℝ :=
  fracOver img fun i j => luma img i j < 0.15

/-- Mean of one colour channel over the grid. -/
noncomputable def meanR (img : Image) : ℝ := meanOver img fun i j => (img.pix i j).1

/-- Mean of the green channel over the grid. -/
noncomputable def meanG (img : Image) : ℝ := meanOver img fun i j => (img.pix i j).2.1

/-- Mean of the blue channel over the grid. -/
noncomputable def meanB (img : Image) : ℝ := meanOver img fun i j => (img.pix i j).2.2

/-- Modelled from the spec (step 6): red dominance
`meanR>0.4` exceeding both other channel means by more than `0.05`. -/
noncomputable def red_pop (img : Image) : Prop :=
  0.4 < meanR img ∧ meanG img + 0.05 < meanR img ∧ meanB img + 0.05 < meanR img

/-- Modelled from the spec (step 6): yellow dominance, by the same fixed
channel-difference thresholds the spec gives for red (red and green both
dominant over blue). -/
noncomputable def yellow_pop (img : Image) : Prop :=
  0.4 < meanR img ∧ 0.4 < meanG img ∧
    meanB img + 0.05 < meanR img ∧ meanB img + 0.05 < meanG img

/-- Modelled from the spec (step 6): blue dominance, analogous to red. -/
noncomputable def blue_pop (img : Image) : Prop :=
  0.4 < meanB img ∧ meanR img + 0.05 < meanB img ∧ meanG img + 0.05 < meanB img

/-- Modelled from the spec (step 6): `color_pop = any(...)`. -/
noncomputable def color_pop (img : Image) : Prop :=
  red_pop img ∨ yellow_pop img ∨ blue_pop img

/-- HSV value of one RGB triple. -/
noncomputable def hsvV (p : ℝ × ℝ × ℝ) : ℝ := max p.1 (max p.2.1 p.2.2)

open Classical in
/-- HSV saturation of one RGB triple. -/
noncomputable def hsvS (p : ℝ × ℝ × ℝ) : ℝ :=
  if hsvV p = 0 then 0 else (hsvV p - min p.1 (min p.2.1 p.2.2)) / hsvV p

open Classical in
/-- Modelled from the spec (step 7): HSV hue of one RGB triple in `[0,1)`,
by the standard conversion (sextant by the maximal channel, wrapped into
one turn). -/
noncomputable def hsvH (p : ℝ × ℝ × ℝ) : ℝ :=
  let mx := hsvV p
  let d := mx - min p.1 (min p.2.1 p.2.2)
  if d = 0 then 0
  else
    let h6 :=
      if mx = p.1 then (p.2.1 - p.2.2) / d
      else if mx = p.2.1 then (p.2.2 - p.1) / d + 2
      else (p.1 - p.2.1) / d + 4
    (if h6 < 0 then h6 + 6 else h6) / 6

/-- Modelled from the spec (step 7): the skin-tone mask of one pixel:
hue in `[0,0.14]∪[0.9,1.0]`, saturation in `[0.1,0.7]`, value in
`[0.2,0.95]`. -/
noncomputable def skinPix (p : ℝ × ℝ × ℝ) : Prop :=
  (hsvH p ≤ 0.14 ∨ 0.9 ≤ hsvH p) ∧
    (0.1 ≤ hsvS p ∧ hsvS p ≤ 0.7) ∧ (0.2 ≤ hsvV p ∧ hsvV p ≤ 0.95)

/-- Modelled from the spec (step 7): `skin_ratio`, the mean of the mask. -/
noncomputable def skin_ratio (img : Image) : ℝ :=
  fracOver img fun i j => skinPix (img.pix i j)

open Classical in
/-- Modelled from the spec (step 8): the four composite cues — face-proxy
(`skin_ratio≥0.12`), contrast (`contrast_std≥12.0`), big-text-proxy
(`white_ratio>0.12 OR black_ratio>0.12`) and `color_pop` — counted. -/
noncomputable def cueCount (img : Image) : ℕ :=
  (if 0.12 ≤ skin_ratio img then 1 else 0) +
    (if 12.0 ≤ contrast_std img then 1 else 0) +
    (if 0.12 < white_ratio img ∨ 0.12 < black_ratio img then 1 else 0) +
    (if color_pop img then 1 else 0)

open Classical in
/-- Modelled from the spec (step 8): `score = sum(cues) + 1 if
edge_density>0.08`, clamped to `[0,5]` (the score is a natural number, so
the clamp below 0 is the type itself). -/
noncomputable def salience_score (img : Image) : ℕ :=
  min ((cueCount img) + (if 0.08 < edge_density img then 1 else 0)) 5

/-- The filtered token list `top_keywords` counts over. -/
def countedToks (text : Text) : List Text :=
  (tokenize_korean (lowerText text)).filter eligibleTok

/-- The frequency of a word among the tokens `top_keywords` counts. -/
def cntOf (text : Text) (w : Text) : ℕ := (countedToks text).count w

/-- The strict order in which `top_keywords` emits distinct words: strictly
larger frequency first, ties by strictly smaller word. -/
def rankKey (text : Text) (u v : Text) : Prop :=
  cntOf text v < cntOf text u ∨ (cntOf text u = cntOf text v ∧ lexLt u v = true)

/-- Lookup in the frequency association list (0 for an absent word). -/
def getCnt : List (Text × ℕ) → Text → ℕ
  | [], _ => 0
  | (v, c) :: rest, w => if v = w then c else getCnt rest w

/-- A line opening a chapter section of the generated script. -/
def chapterHeaderLine (l : Text) : Bool := ("\n### 챕터".data).isPrefixOf l

/-- A 1×1 all-black decoded image: the degenerate case of the salience
claim. -/
def black1x1 : Image := ⟨1, 1, fun _ _ => (0, 0, 0)⟩

/-- A concrete reference input for instantiating the idea-generation
theorems. -/
def refEx : ReferenceVideoInput :=
  ⟨1000000, 50000, 600, "초보도 되는 10분 정리 루틴".data, [],
    "정리 루틴 정리 방법 루틴 정리".data⟩

/-- A concrete reference input whose merged title and script hold no
eligible keyword: the title and script are stopwords and a length-1
token. -/
def refStop : ReferenceVideoInput :=
  ⟨0, 0, 0, "그리고 그러나".data, [], "좀 더".data⟩

/-- C5: with zero views the engagement analyzer reports a zero rate in the
low tier, and with zero seconds the pacing analyzer reports zero wpm; in
both cases `safe_div` substitutes the default instead of dividing. -/
theorem C5_zero_denominator_guards :
    (∀ likes : ℕ, engagement_metrics 0 likes =
      { engagement_rate := 0, tier := "낮음(<1%)".data }) ∧
    (∀ script_text : Text, (pacing_analysis 0 script_text).wpm = 0) := by
  constructor
  · intro likes
    simp only [engagement_metrics, safe_div]
    norm_num [round_to, round_half_even]
  · intro st
    simp only [pacing_analysis, safe_div]
    norm_num [round_to, round_half_even]

/-- C9: the hook score equals the number of signals reported true, so the
score and the per-signal booleans never disagree. -/
theorem C9_hook_score_matches_signals (s : Text) :
    (detect_hook s).score_5 = ((detect_hook s).signals.filter fun p => p.2).length := by
  simp [detect_hook, List.countP_eq_length_filter]

open Classical in
/-- C1: for every valid decoded image the salience score is the clamped sum
of the four composite cues plus the edge-density bonus, an integer in
`[0,5]`, degenerate images included. -/
theorem C1_salience_score_formula_and_range (img : Image) (h : validImage img) :
    salience_score img =
      min (cueCount img + (if 0.08 < edge_density img then 1 else 0)) 5 ∧
      salience_score img ≤ 5 :=
  ⟨rfl, Nat.min_le_right _ 5⟩

/-- C1 witness: the 1×1 all-black image is valid and its score is in range. -/
theorem C1_salience_witness : salience_score black1x1 ≤ 5 :=
  (C1_salience_score_formula_and_range black1x1
    ⟨Nat.one_pos, Nat.one_pos, by intro i j _ _; norm_num [black1x1]⟩).2

set_option maxRecDepth 4096 in
/-- C3 counterexample: two scripts agreeing on their first 400 characters
whose hook scores differ — `detect_hook` strips whitespace before slicing,
so the emotion keyword written at character offset 401 slides into the
scanned window. -/
theorem C3_hook_prefix_counterexample :
    (List.replicate 399 ' ' ++ "x충격".data).take 400 =
        (List.replicate 399 ' ' ++ "x".data).take 400 ∧
      (detect_hook (List.replicate 399 ' ' ++ "x충격".data)).score_5 ≠
        (detect_hook (List.replicate 399 ' ' ++ "x".data)).score_5 := by
  decide

/-- C3 (amended): the hook score is in `[0,5]` and depends only on the
first 400 characters of the *stripped* script: scripts whose stripped
texts share a 400-character prefix score identically, so a signal keyword
at offset 401 or later of the stripped text never affects the score. -/
theorem C3_hook_score_range_and_prefix (s₁ s₂ : Text)
    (h : (stripText s₁).take 400 = (stripText s₂).take 400) :
    (detect_hook s₁).score_5 ≤ 5 ∧
      (detect_hook s₁).score_5 = (detect_hook s₂).score_5 := by
  constructor
  · exact le_trans (List.countP_le_length _) (by simp [hookSignals])
  · show (hookSignals ((stripText s₁).take 400)).countP _ =
      (hookSignals ((stripText s₂).take 400)).countP _
    rw [h]

set_option maxRecDepth 4096 in
/-- C3 witness: two concrete scripts of over 400 characters agreeing on the
first 400 characters of their stripped texts score identically and within
range. -/
theorem C3_hook_score_witness :
    (detect_hook ("충격정리".data ++ List.replicate 398 'a' ++ "소름".data)).score_5 ≤ 5 ∧
      (detect_hook ("충격정리".data ++ List.replicate 398 'a' ++ "소름".data)).score_5 =
        (detect_hook ("충격정리".data ++ List.replicate 398 'a')).score_5 :=
  C3_hook_score_range_and_prefix _ _ (by decide)

/-- C4: idea generation is a pure function of the merged title+script
keyword list (top 6) and `n`: equal keyword lists give identical idea
lists, exactly `n` ideas are produced, and the idea at index `i` uses
`BASE_ANGLES[i % 10]`, `DIFF_VAULT[i % 10]` and the phrasing variant
`[i % 4]`. -/
theorem C4_generate_ideas_deterministic (ref ref' : ReferenceVideoInput) (n i : ℕ) :
    (top_keywords (ref.title ++ " ".data ++ ref.script_text) 6 =
        top_keywords (ref'.title ++ " ".data ++ ref'.script_text) 6 →
      generate_ideas ref n = generate_ideas ref' n) ∧
    (generate_ideas ref n).length = n ∧
    (i < n →
      (generate_ideas ref n).getD i ⟨[], [], []⟩ =
        { idea_title := "[".data ++ (BASE_ANGLES.getD (i % 10) ([], [])).1 ++ "] ".data ++
            joinWith ", ".data
              ((top_keywords (ref.title ++ " ".data ++ ref.script_text) 6).take 3) ++
            "를 ".data ++ PHRASE_VARIANTS.getD (i % 4) [] ++ " 해봤다".data,
          concept := (BASE_ANGLES.getD (i % 10) ([], [])).2 ++ " + 차별포인트: ".data ++
            DIFF_VAULT.getD (i % 10) [],
          logline := "레퍼런스의 핵심 주제(".data ++
            joinWith ", ".data (top_keywords (ref.title ++ " ".data ++ ref.script_text) 6) ++
            ")를 유지하되, ".data ++ (BASE_ANGLES.getD (i % 10) ([], [])).1 ++
            " 톤으로 전개. ".data ++ DIFF_VAULT.getD (i % 10) [] ++ " 적용.".data }) := by
  refine ⟨fun h => ?_, ?_, fun hi => ?_⟩
  · unfold generate_ideas
    rw [h]
  · simp [generate_ideas]
  · have hb : BASE_ANGLES.length = 10 := rfl
    have hd : DIFF_VAULT.length = 10 := rfl
    simp [generate_ideas, List.getElem?_range hi, idea_of, hb, hd]

/-- C10: when the merged title+script text yields no eligible keyword,
`generate_ideas` still returns exactly `n` records whose title, concept and
logline are non-empty (the keyword segments are simply empty). -/
theorem C10_ideas_safe_without_keywords (ref : ReferenceVideoInput) (n : ℕ)
    (h : top_keywords (ref.title ++ " ".data ++ ref.script_text) 6 = []) :
    (generate_ideas ref n).length = n ∧
    ∀ i, i < n →
      ((generate_ideas ref n).getD i ⟨[], [], []⟩).idea_title ≠ [] ∧
        ((generate_ideas ref n).getD i ⟨[], [], []⟩).concept ≠ [] ∧
          ((generate_ideas ref n).getD i ⟨[], [], []⟩).logline ≠ [] := by
  refine ⟨by simp [generate_ideas], fun i hi => ?_⟩
  refine ⟨?_, ?_, ?_⟩ <;> simp [generate_ideas, List.getElem?_range hi, idea_of]

/-- C10 witness: a reference whose title and script are stopwords and a
length-1 token produces five well-formed ideas. -/
theorem C10_ideas_witness :
    (generate_ideas refStop 5).length = 5 ∧
      ((generate_ideas refStop 5).getD 0 ⟨[], [], []⟩).idea_title ≠ [] ∧
        ((generate_ideas refStop 5).getD 0 ⟨[], [], []⟩).concept ≠ [] ∧
          ((generate_ideas refStop 5).getD 0 ⟨[], [], []⟩).logline ≠ [] := by
  have H := C10_ideas_safe_without_keywords refStop 5 (by decide)
  exact ⟨H.1, (H.2 0 (by norm_num)).1, (H.2 0 (by norm_num)).2.1, (H.2 0 (by norm_num)).2.2⟩

/-- C8 counterexample: the title "10분" contains the duration unit "분" as
a substring, yet `title_analysis` reports `has_duration = False` — the
regex `\b(초|분|...)\b` requires word boundaries and `1` is a word
character. -/
theorem C8_title_duration_counterexample :
    containsSub "10분".data "분".data = true ∧
      (title_analysis "10분".data).has_duration = false := by
  decide

/-- C8 (amended): `has_number` is true iff the title contains a digit;
`has_duration` is true iff a duration unit occurs *word-bounded* (not
adjacent to word characters, so "10분" does not count); and
`specificity = int(has_number) + int(has_duration) + min(power_hits, 2)`,
which never exceeds 4. -/
theorem C8_title_analysis_fields (title : Text) :
    ((title_analysis title).has_number = true ↔ ∃ c ∈ title, c.isDigit = true) ∧
    ((title_analysis title).has_duration = true ↔
      ∃ u ∈ DURATION_UNITS, ∃ i, boundaryBefore title i = true ∧
        u.isPrefixOf (title.drop i) = true ∧
          boundaryAfterAt title (i + u.length) = true) ∧
    (title_analysis title).specificity_score_0_4 =
      (if (title_analysis title).has_number then 1 else 0) +
        (if (title_analysis title).has_duration then 1 else 0) +
        min (title_analysis title).power_words_hit 2 ∧
    (title_analysis title).specificity_score_0_4 ≤ 4 := by
  refine ⟨?_, ?_, rfl, ?_⟩
  · simp [title_analysis, hasDigit, List.any_eq_true]
  · simp only [title_analysis, List.any_eq_true, hasWordBounded]
    constructor
    · rintro ⟨u, hu, i, -, hb⟩
      simp only [Bool.and_eq_true] at hb
      exact ⟨u, hu, i, hb.1.1, hb.1.2, hb.2⟩
    · rintro ⟨u, hu, i, h1, h2, h3⟩
      refine ⟨u, hu, i, ?_, by simp [h1, h2, h3]⟩
      simp only [List.mem_range]
      by_contra hlen
      have hdrop : title.drop i = [] :=
        List.drop_eq_nil_of_le (by omega)
      have hall : ∀ v ∈ DURATION_UNITS, v ≠ [] := by decide
      have hne : u ≠ [] := hall u hu
      rw [hdrop] at h2
      rcases u with - | ⟨x, us⟩
      · exact hne rfl
      · simp [List.isPrefixOf] at h2
  · have hmin : min (title_analysis title).power_words_hit 2 ≤ 2 :=
      Nat.min_le_right _ 2
    simp only [title_analysis]
    split_ifs <;> omega

/-- C4 witness: at a concrete reference, ten ideas are produced and idea 3
is built from `BASE_ANGLES[3 % 10]`, `DIFF_VAULT[3 % 10]` and phrasing
variant `3 % 4`. -/
theorem C4_generate_ideas_witness :
    generate_ideas refEx 10 = generate_ideas refEx 10 ∧
    (generate_ideas refEx 10).length = 10 ∧
    (generate_ideas refEx 10).getD 3 ⟨[], [], []⟩ =
      { idea_title := "[".data ++ (BASE_ANGLES.getD (3 % 10) ([], [])).1 ++ "] ".data ++
          joinWith ", ".data
            ((top_keywords (refEx.title ++ " ".data ++ refEx.script_text) 6).take 3) ++
          "를 ".data ++ PHRASE_VARIANTS.getD (3 % 4) [] ++ " 해봤다".data,
        concept := (BASE_ANGLES.getD (3 % 10) ([], [])).2 ++ " + 차별포인트: ".data ++
          DIFF_VAULT.getD (3 % 10) [],
        logline := "레퍼런스의 핵심 주제(".data ++
          joinWith ", ".data (top_keywords (refEx.title ++ " ".data ++ refEx.script_text) 6) ++
          ")를 유지하되, ".data ++ (BASE_ANGLES.getD (3 % 10) ([], [])).1 ++
          " 톤으로 전개. ".data ++ DIFF_VAULT.getD (3 % 10) [] ++ " 적용.".data } := by
  have H := C4_generate_ideas_deterministic refEx refEx 10 3
  exact ⟨H.1 rfl, H.2.1, H.2.2 (by norm_num)⟩

/-- C7 counterexample: `top_keywords` is not idempotent on sequences — on
the text "나나 나나 가가" it returns the frequency order [나나, 가가], but
re-running on the space-joined output flattens every frequency to 1 and the
lexicographic tie-break reorders to [가가, 나나]. -/
theorem C7_idempotence_counterexample :
    top_keywords (joinWords (top_keywords "나나 나나 가가".data 8)) 8 ≠
      top_keywords "나나 나나 가가".data 8 := by
  decide

/-- Bumping a word increments its own entry. -/
theorem getCnt_bump_self (acc : List (Text × ℕ)) (w : Text) :
    getCnt (bump acc w) w = getCnt acc w + 1 := by
  induction acc with
  | nil => simp [bump, getCnt]
  | cons p rest ih =>
    obtain ⟨v, c⟩ := p
    by_cases hv : v = w
    · simp [bump, getCnt, hv]
    · simp [bump, getCnt, hv, ih]

/-- Bumping a word leaves every other entry's count alone. -/
theorem getCnt_bump_ne (acc : List (Text × ℕ)) {w v : Text} (h : v ≠ w) :
    getCnt (bump acc w) v = getCnt acc v := by
  induction acc with
  | nil => simp [bump, getCnt, Ne.symm h]
  | cons p rest ih =>
    obtain ⟨u, c⟩ := p
    by_cases hu : u = w
    · subst hu
      simp [bump, getCnt, Ne.symm h]
    · by_cases huv : u = v
      · subst huv
        simp [bump, getCnt, hu]
      · simp [bump, getCnt, hu, huv, ih]

/-- Folding the tokens into the dictionary adds each word's occurrence
count to its entry. -/
theorem getCnt_foldl (ws : List Text) (acc : List (Text × ℕ)) (v : Text) :
    getCnt (ws.foldl bump acc) v = getCnt acc v + ws.count v := by
  induction ws generalizing acc with
  | nil => simp
  | cons w ws ih =>
    rw [List.foldl_cons, ih]
    by_cases hv : w = v
    · subst hv
      rw [getCnt_bump_self]
      simp [List.count_cons]
      try omega
    · rw [getCnt_bump_ne acc (Ne.symm hv)]
      simp [List.count_cons, hv]

/-- Bumping preserves the key set except for possibly appending the new
word at the end. -/
theorem keys_bump (acc : List (Text × ℕ)) (w : Text) :
    (bump acc w).map Prod.fst =
      if w ∈ acc.map Prod.fst then acc.map Prod.fst
      else acc.map Prod.fst ++ [w] := by
  induction acc with
  | nil => simp [bump]
  | cons p rest ih =>
    obtain ⟨v, c⟩ := p
    by_cases hv : v = w
    · simp [bump, hv]
    · simp [bump, hv, ih, Ne.symm hv]
      by_cases hw : w ∈ rest.map Prod.fst <;> simp [hw, Ne.symm hv]

/-- The frequency dictionary has pairwise distinct keys. -/
theorem keysNodup_foldl (ws : List Text) (acc : List (Text × ℕ))
    (h : (acc.map Prod.fst).Nodup) : ((ws.foldl bump acc).map Prod.fst).Nodup := by
  induction ws generalizing acc with
  | nil => exact h
  | cons w ws ih =>
    rw [List.foldl_cons]
    refine ih _ ?_
    rw [keys_bump]
    by_cases hw : w ∈ acc.map Prod.fst
    · simpa [hw] using h
    · simp only [hw, if_false]
      simpa [List.nodup_append, hw] using h

/-- Bumping preserves positivity of the counts. -/
theorem snd_pos_bump (acc : List (Text × ℕ)) (w : Text)
    (h : ∀ p ∈ acc, 0 < p.2) : ∀ p ∈ bump acc w, 0 < p.2 := by
  induction acc with
  | nil =>
    intro p hp
    simp only [bump, List.mem_singleton] at hp
    subst hp
    exact Nat.one_pos
  | cons q rest ih =>
    obtain ⟨v, c⟩ := q
    intro p hp
    by_cases hv : v = w
    · simp only [bump, if_pos hv, List.mem_cons] at hp
      rcases hp with rfl | hp
      · exact Nat.succ_pos _
      · exact h _ (List.mem_cons_of_mem _ hp)
    · simp only [bump, if_neg hv, List.mem_cons] at hp
      rcases hp with rfl | hp
      · exact h _ (List.mem_cons_self _ _)
      · exact ih (fun r hr => h r (List.mem_cons_of_mem _ hr)) p hp

/-- Every entry of the frequency dictionary has a positive count. -/
theorem snd_pos_foldl (ws : List Text) (acc : List (Text × ℕ))
    (h : ∀ p ∈ acc, 0 < p.2) : ∀ p ∈ ws.foldl bump acc, 0 < p.2 := by
  induction ws generalizing acc with
  | nil => exact h
  | cons w ws ih =>
    rw [List.foldl_cons]
    exact ih _ (snd_pos_bump acc w h)

/-- With distinct keys, membership of a pair determines the lookup. -/
theorem getCnt_of_mem (acc : List (Text × ℕ)) (h : (acc.map Prod.fst).Nodup)
    (p : Text × ℕ) (hp : p ∈ acc) : getCnt acc p.1 = p.2 := by
  induction acc with
  | nil => cases hp
  | cons q rest ih =>
    obtain ⟨v, c⟩ := q
    rw [List.map_cons, List.nodup_cons] at h
    rcases List.mem_cons.mp hp with rfl | hp'
    · simp [getCnt]
    · have hv : v ≠ p.1 := by
        intro he
        refine h.1 ?_
        rw [he]
        exact List.mem_map.mpr ⟨p, hp', rfl⟩
      simp only [getCnt, if_neg hv]
      exact ih h.2 hp'

/-- A word with a positive lookup is present with that count. -/
theorem mem_of_getCnt_pos (acc : List (Text × ℕ)) (v : Text)
    (h : 0 < getCnt acc v) : (v, getCnt acc v) ∈ acc := by
  induction acc with
  | nil => simp [getCnt] at h
  | cons q rest ih =>
    obtain ⟨u, c⟩ := q
    by_cases hu : u = v
    · subst hu
      simp only [getCnt, if_pos rfl] at h ⊢
      exact List.mem_cons_self _ _
    · simp only [getCnt, if_neg hu] at h ⊢
      exact List.mem_cons_of_mem _ (ih h)

/-- Every entry of `freqListOf ws` records exactly its word's occurrence
count in `ws`, and the word occurs in `ws`. -/
theorem mem_freqListOf {ws : List Text} {p : Text × ℕ} (hp : p ∈ freqListOf ws) :
    p.2 = ws.count p.1 ∧ p.1 ∈ ws := by
  have hkeys : ((freqListOf ws).map Prod.fst).Nodup :=
    keysNodup_foldl ws [] (by simp)
  have hc : getCnt (freqListOf ws) p.1 = p.2 := getCnt_of_mem _ hkeys p hp
  have hcount : getCnt (freqListOf ws) p.1 = ws.count p.1 := by
    simpa [getCnt] using getCnt_foldl ws [] p.1
  have hpos : 0 < p.2 := snd_pos_foldl ws [] (by simp) p hp
  refine ⟨by omega, ?_⟩
  exact List.count_pos_iff.mp (by omega)

/-- Conversely, every word of `ws` appears in `freqListOf ws`, paired with
its count. -/
theorem count_mem_freqListOf {ws : List Text} {v : Text} (hv : v ∈ ws) :
    (v, ws.count v) ∈ freqListOf ws := by
  have hcount : getCnt (freqListOf ws) v = ws.count v := by
    simpa [getCnt] using getCnt_foldl ws [] v
  have hpos : 0 < ws.count v := List.count_pos_iff.mpr hv
  have := mem_of_getCnt_pos (freqListOf ws) v (by omega)
  rwa [hcount] at this

/-- Two pairwise properties of one list combine pointwise. -/
theorem pairwise_and {α : Type} {R T : α → α → Prop} {l : List α}
    (h1 : l.Pairwise R) (h2 : l.Pairwise T) :
    l.Pairwise fun a b => R a b ∧ T a b := by
  induction l with
  | nil => exact List.Pairwise.nil
  | cons a l ih =>
    rw [List.pairwise_cons] at h1 h2 ⊢
    exact ⟨fun b hb => ⟨h1.1 b hb, h2.1 b hb⟩, ih h1.2 h2.2⟩

/-- The take of the sorted frequency table that `top_keywords` projects. -/
theorem top_keywords_def (text : Text) (k : ℕ) :
    top_keywords text k =
      ((List.insertionSort keyRel (freqListOf (countedToks text))).take k).map Prod.fst :=
  rfl

/-- The sorted frequency table is a permutation of the frequency table with
distinct keys, and every entry records its word's frequency among the
counted tokens. -/
theorem sorted_freq_facts (text : Text) :
    ((List.insertionSort keyRel (freqListOf (countedToks text))).map Prod.fst).Nodup ∧
    ∀ p ∈ List.insertionSort keyRel (freqListOf (countedToks text)),
      p.2 = cntOf text p.1 ∧ p.1 ∈ countedToks text := by
  constructor
  · exact (List.Perm.nodup_iff
      ((List.perm_insertionSort keyRel _).map Prod.fst)).mpr
      (keysNodup_foldl _ [] (by simp))
  · intro p hp
    exact mem_freqListOf ((List.perm_insertionSort keyRel _).mem_iff.mp hp)

/-- `top_keywords` returns at most `k` words. -/
theorem top_keywords_len (text : Text) (k : ℕ) : (top_keywords text k).length ≤ k := by
  rw [top_keywords_def]
  simp only [List.length_map, List.length_take]
  omega

/-- The words `top_keywords` returns are pairwise distinct. -/
theorem top_keywords_nodup (text : Text) (k : ℕ) : (top_keywords text k).Nodup := by
  rw [top_keywords_def, List.map_take]
  exact List.Nodup.sublist (List.take_sublist _ _) (sorted_freq_facts text).1

/-- The words `top_keywords` returns are strictly ordered by descending
frequency, ties by ascending lexicographic order. -/
theorem top_keywords_pairwise (text : Text) (k : ℕ) :
    (top_keywords text k).Pairwise (rankKey text) := by
  have hsorted := List.sorted_insertionSort keyRel (freqListOf (countedToks text))
  have hkeyne := pairwise_and hsorted
    (List.pairwise_map.mp (sorted_freq_facts text).1)
  have hrank : (List.insertionSort keyRel (freqListOf (countedToks text))).Pairwise
      fun p q => rankKey text p.1 q.1 := by
    refine (List.Pairwise.and_mem.mp hkeyne).imp ?_
    rintro p q ⟨hpS, hqS, hk, hne⟩
    obtain ⟨hpc, -⟩ := (sorted_freq_facts text).2 p hpS
    obtain ⟨hqc, -⟩ := (sorted_freq_facts text).2 q hqS
    rcases hk with hlt | ⟨heq, hor⟩
    · exact Or.inl (by rw [← hpc, ← hqc]; exact hlt)
    · rcases hor with he | hl
      · exact absurd he hne
      · exact Or.inr ⟨by rw [← hpc, ← hqc, heq], hl⟩
  rw [top_keywords_def]
  exact List.pairwise_map.mpr (List.Pairwise.sublist (List.take_sublist _ _) hrank)

/-- Every word `top_keywords` returns is an eligible token of the
lower-cased text. -/
theorem top_keywords_mem (text : Text) (k : ℕ) :
    ∀ w ∈ top_keywords text k,
      eligibleTok w = true ∧ w ∈ tokenize_korean (lowerText text) := by
  rw [top_keywords_def]
  intro w hw
  obtain ⟨p, hp, rfl⟩ := List.mem_map.mp hw
  have hpS := (List.take_sublist k _).subset hp
  obtain ⟨-, hmem⟩ := (sorted_freq_facts text).2 p hpS
  exact ⟨(List.mem_filter.mp hmem).2, (List.mem_filter.mp hmem).1⟩

/-- Every eligible token left out of `top_keywords` ranks no higher than
any returned word. -/
theorem top_keywords_excluded (text : Text) (k : ℕ) :
    ∀ w, eligibleTok w = true → w ∈ tokenize_korean (lowerText text) →
      w ∉ top_keywords text k → ∀ u ∈ top_keywords text k,
        cntOf text w < cntOf text u ∨
          (cntOf text u = cntOf text w ∧ (u = w ∨ lexLt u w = true)) := by
  set S := List.insertionSort keyRel (freqListOf (countedToks text)) with hS
  intro w helig htok hnot u hu
  have hwmem : w ∈ countedToks text := List.mem_filter.mpr ⟨htok, helig⟩
  have hwS : (w, cntOf text w) ∈ S :=
    (List.perm_insertionSort keyRel _).mem_iff.mpr (count_mem_freqListOf hwmem)
  have hsplit := List.take_append_drop k S
  have hwdrop : (w, cntOf text w) ∈ S.drop k := by
    rcases List.mem_append.mp (by rw [hsplit]; exact hwS) with hin | hin
    · exfalso
      refine hnot ?_
      rw [top_keywords_def]
      exact List.mem_map.mpr ⟨_, hin, rfl⟩
    · exact hin
  rw [top_keywords_def] at hu
  obtain ⟨pu, hpu, rfl⟩ := List.mem_map.mp hu
  have hcross : keyRel pu (w, cntOf text w) := by
    have hsp : (S.take k ++ S.drop k).Pairwise keyRel := by
      rw [hsplit]
      exact List.sorted_insertionSort keyRel _
    exact (List.pairwise_append.mp hsp).2.2 pu hpu _ hwdrop
  have hpuS : pu ∈ S := (List.take_sublist k S).subset hpu
  obtain ⟨hpc, -⟩ := (sorted_freq_facts text).2 pu hpuS
  rcases hcross with hlt | ⟨heq, hor⟩
  · exact Or.inl (by rw [← hpc]; exact hlt)
  · exact Or.inr ⟨by rw [← hpc]; exact heq, hor⟩

/-- C2: `top_keywords` returns at most `k` words, strictly ordered by
descending frequency with ascending lexicographic tie-break; every word
returned is an eligible token of the lower-cased text; every eligible token
left out ranks no higher than any word returned; and the ranking stage
orders the frequency table {가:2, 나:2, 다:1} as [가, 나, 다]. -/
theorem C2_top_keywords_order (text : Text) (k : ℕ) :
    (top_keywords text k).length ≤ k ∧
    (top_keywords text k).Pairwise (rankKey text) ∧
    (∀ w ∈ top_keywords text k,
      eligibleTok w = true ∧ w ∈ tokenize_korean (lowerText text)) ∧
    (∀ w, eligibleTok w = true → w ∈ tokenize_korean (lowerText text) →
      w ∉ top_keywords text k → ∀ u ∈ top_keywords text k,
        cntOf text w < cntOf text u ∨
          (cntOf text u = cntOf text w ∧ (u = w ∨ lexLt u w = true))) ∧
    ranked_keywords [("가".data, 2), ("나".data, 2), ("다".data, 1)] =
      ["가".data, "나".data, "다".data] :=
  ⟨top_keywords_len text k, top_keywords_pairwise text k, top_keywords_mem text k,
    top_keywords_excluded text k, by decide⟩

/-- C2 witness: on the text "나나 나나 가가 가가 가가" with `k = 1`, the one
returned word 가가 is an eligible token, and the omitted eligible token
나나 ranks strictly below it. -/
theorem C2_top_keywords_order_witness :
    (top_keywords "나나 나나 가가 가가 가가".data 1).length ≤ 1 ∧
    (eligibleTok "가가".data = true ∧
      "가가".data ∈ tokenize_korean (lowerText "나나 나나 가가 가가 가가".data)) ∧
    (cntOf "나나 나나 가가 가가 가가".data "나나".data <
        cntOf "나나 나나 가가 가가 가가".data "가가".data ∨
      (cntOf "나나 나나 가가 가가 가가".data "가가".data =
          cntOf "나나 나나 가가 가가 가가".data "나나".data ∧
        ("가가".data = "나나".data ∨ lexLt "가가".data "나나".data = true))) := by
  have H := C2_top_keywords_order "나나 나나 가가 가가 가가".data 1
  exact ⟨H.1, H.2.2.1 "가가".data (by decide),
    H.2.2.2.1 "나나".data (by decide) (by decide) (by decide) "가가".data (by decide)⟩

/-- Every element of every chunk of `splitOnP` is a non-separator element
of the original list. -/
theorem mem_splitOnP {α : Type} (p : α → Bool) (t w : List α)
    (hw : w ∈ t.splitOnP p) : ∀ c ∈ w, c ∈ t ∧ p c = false := by
  induction t generalizing w with
  | nil =>
    rw [List.splitOnP_nil] at hw
    rcases List.mem_singleton.mp hw with rfl
    intro c hc
    cases hc
  | cons x xs ih =>
    rw [List.splitOnP_cons] at hw
    by_cases hx : p x
    · rw [if_pos hx] at hw
      rcases List.mem_cons.mp hw with rfl | hw'
      · intro c hc; cases hc
      · intro c hc
        obtain ⟨hct, hcp⟩ := ih w hw' c hc
        exact ⟨List.mem_cons_of_mem _ hct, hcp⟩
    · rw [if_neg hx] at hw
      obtain ⟨s, rest, hsr⟩ := List.exists_cons_of_ne_nil (List.splitOnP_ne_nil p xs)
      rw [hsr] at hw
      simp only [List.modifyHead] at hw
      rcases List.mem_cons.mp hw with rfl | hw'
      · intro c hc
        rcases List.mem_cons.mp hc with rfl | hc'
        · exact ⟨List.mem_cons_self _ _, Bool.eq_false_iff.mpr hx⟩
        · obtain ⟨hct, hcp⟩ := ih s (by rw [hsr]; exact List.mem_cons_self _ _) c hc'
          exact ⟨List.mem_cons_of_mem _ hct, hcp⟩
      · intro c hc
        obtain ⟨hct, hcp⟩ := ih w (by rw [hsr]; exact List.mem_cons_of_mem _ hw') c hc
        exact ⟨List.mem_cons_of_mem _ hct, hcp⟩

/-- Every token of `tokenize_korean` is a non-empty run of non-whitespace
characters of the scrubbed text. -/
theorem mem_tokenize {t w : Text} (hw : w ∈ tokenize_korean t) :
    w ≠ [] ∧ ∀ c ∈ w, c ∈ scrub t ∧ isSpaceChar c = false := by
  obtain ⟨h1, h2⟩ := List.mem_filter.mp hw
  refine ⟨by simpa [List.isEmpty_iff] using h2, ?_⟩
  exact mem_splitOnP isSpaceChar (scrub t) w h1

/-- A character of the scrubbed text is whitespace or a kept character of
the original. -/
theorem mem_scrub {t : Text} {c : Char} (hc : c ∈ scrub t) :
    isSpaceChar c = true ∨ (isKeptChar c = true ∧ c ∈ t) := by
  obtain ⟨d, hd, he⟩ := List.mem_map.mp hc
  by_cases hkeep : (isKeptChar d || isSpaceChar d) = true
  · rw [if_pos hkeep] at he
    subst he
    rcases (by simpa using hkeep : isKeptChar d = true ∨ isSpaceChar d = true) with h | h
    · exact Or.inr ⟨h, hd⟩
    · exact Or.inl h
  · rw [if_neg hkeep] at he
    subst he
    exact Or.inl (by decide)

/-- Packing a valid code point and reading it back is the identity. -/
theorem char_toNat_ofNat {n : ℕ} (h : n.isValidChar) : (Char.ofNat n).toNat = n := by
  rw [Char.ofNat, dif_pos h]
  rfl

/-- `Char.toLower` moves no character outside the ASCII upper-case range. -/
theorem toLower_eq_self {c : Char} (h : ¬(65 ≤ c.toNat ∧ c.toNat ≤ 90)) :
    Char.toLower c = c := by
  unfold Char.toLower
  exact if_neg fun hh => h ⟨hh.1, hh.2⟩

/-- The image of `Char.toLower` never lies in the ASCII upper-case range. -/
theorem toLower_not_upper (d : Char) :
    ¬(65 ≤ (Char.toLower d).toNat ∧ (Char.toLower d).toNat ≤ 90) := by
  unfold Char.toLower
  by_cases h : d.toNat ≥ 65 ∧ d.toNat ≤ 90
  · rw [if_pos h]
    have hv : (d.toNat + 32).isValidChar := Or.inl (by omega)
    rw [char_toNat_ofNat hv]
    omega
  · rw [if_neg h]
    exact fun hh => h ⟨hh.1, hh.2⟩

/-- Characters of a lower-cased text are fixed by lower-casing. -/
theorem toLower_mem_fix {t : Text} {c : Char} (hc : c ∈ lowerText t) :
    Char.toLower c = c := by
  obtain ⟨d, -, rfl⟩ := List.mem_map.mp hc
  exact toLower_eq_self (toLower_not_upper d)

/-- A map that fixes every element of a list is the identity on it. -/
theorem map_id_on {α : Type} {f : α → α} {l : List α} (h : ∀ c ∈ l, f c = c) :
    l.map f = l := by
  induction l with
  | nil => rfl
  | cons a l ih =>
    rw [List.map_cons, h a (List.mem_cons_self a l), ih fun c hc => h c (List.mem_cons_of_mem a hc)]

/-- Characters of a space-join come from the separator or from a word. -/
theorem mem_joinWords {ws : List Text} {c : Char} (hc : c ∈ joinWords ws) :
    c = ' ' ∨ ∃ w ∈ ws, c ∈ w := by
  induction ws with
  | nil => cases hc
  | cons w ws ih =>
    cases ws with
    | nil => exact Or.inr ⟨w, List.mem_cons_self _ _, hc⟩
    | cons v vs =>
      have hj : joinWords (w :: v :: vs) = w ++ ' ' :: joinWords (v :: vs) := by
        simp [joinWords, joinWith]
      rw [hj] at hc
      rcases List.mem_append.mp hc with h | h
      · exact Or.inr ⟨w, List.mem_cons_self _ _, h⟩
      · rcases List.mem_cons.mp h with rfl | h'
        · exact Or.inl rfl
        · rcases ih h' with h'' | ⟨u, hu, hcu⟩
          · exact Or.inl h''
          · exact Or.inr ⟨u, List.mem_cons_of_mem _ hu, hcu⟩

/-- Splitting the space-join of non-empty space-free words recovers them. -/
theorem splitWs_joinWords {ws : List Text}
    (h : ∀ w ∈ ws, w ≠ [] ∧ ∀ c ∈ w, isSpaceChar c = false) :
    splitWs (joinWords ws) = ws := by
  induction ws with
  | nil => rfl
  | cons w ws ih =>
    obtain ⟨hne, hch⟩ := h w (List.mem_cons_self _ _)
    cases ws with
    | nil =>
      show splitWs w = [w]
      unfold splitWs
      rw [List.splitOnP_eq_single _ _ fun x hx => by simp [hch x hx]]
      simp [List.isEmpty_iff, hne]
    | cons v vs =>
      have hj : joinWords (w :: v :: vs) = w ++ ' ' :: joinWords (v :: vs) := by
        simp [joinWords, joinWith]
      rw [hj]
      unfold splitWs
      rw [List.splitOnP_first _ _ (fun x hx => by simp [hch x hx]) ' ' (by decide)]
      have ihr := ih fun u hu => h u (List.mem_cons_of_mem _ hu)
      unfold splitWs at ihr
      rw [List.filter_cons, if_pos (show (!w.isEmpty) = true by simp [List.isEmpty_iff, hne]),
        ihr]

/-- Bumping a word absent from the dictionary appends a fresh entry. -/
theorem bump_of_fresh {acc : List (Text × ℕ)} {w : Text}
    (h : ∀ q ∈ acc, q.1 ≠ w) : bump acc w = acc ++ [(w, 1)] := by
  induction acc with
  | nil => rfl
  | cons q rest ih =>
    obtain ⟨v, c⟩ := q
    have hv : v ≠ w := h (v, c) (List.mem_cons_self _ _)
    simp only [bump, if_neg hv, List.cons_append]
    rw [ih fun q hq => h q (List.mem_cons_of_mem _ hq)]

/-- Folding pairwise-distinct fresh words into the dictionary appends one
singleton entry per word, in order. -/
theorem foldl_bump_fresh (ws : List Text) (hnd : ws.Nodup) :
    ∀ acc : List (Text × ℕ), (∀ v ∈ ws, ∀ q ∈ acc, q.1 ≠ v) →
      ws.foldl bump acc = acc ++ ws.map fun w => (w, 1) := by
  induction ws with
  | nil => intro acc _; simp
  | cons w ws ih =>
    intro acc hacc
    rw [List.nodup_cons] at hnd
    rw [List.foldl_cons, bump_of_fresh (hacc w (List.mem_cons_self _ _))]
    rw [ih hnd.2 _ ?_]
    · simp
    · intro v hv q hq
      rcases List.mem_append.mp hq with hq' | hq'
      · exact hacc v (List.mem_cons_of_mem _ hv) q hq'
      · rcases List.mem_singleton.mp hq' with rfl
        intro he
        refine hnd.1 ?_
        rw [show w = v from he]
        exact hv

/-- The frequency dictionary of pairwise-distinct tokens pairs each with
count 1, in order. -/
theorem freqListOf_nodup {ws : List Text} (h : ws.Nodup) :
    freqListOf ws = ws.map fun w => (w, 1) := by
  simpa [freqListOf] using foldl_bump_fresh ws h [] (by simp)

/-- C7 (amended): re-running `top_keywords` on the space-join of its own
output returns the same keywords as a permutation — the set of keywords is
stable, though the sequence is re-sorted lexicographically once all
frequencies flatten to 1 (the counterexample shows order is not
preserved). -/
theorem C7_top_keywords_rerun_perm (text : Text) (k : ℕ) :
    List.Perm (top_keywords (joinWords (top_keywords text k)) k)
      (top_keywords text k) := by
  set out := top_keywords text k with hout
  have hmem := top_keywords_mem text k
  have hfacts : ∀ w ∈ out, w ≠ [] ∧ ∀ c ∈ w,
      isKeptChar c = true ∧ isSpaceChar c = false ∧ Char.toLower c = c := by
    intro w hw
    obtain ⟨helig, htok⟩ := hmem w hw
    obtain ⟨hne, hch⟩ := mem_tokenize htok
    refine ⟨hne, fun c hc => ?_⟩
    obtain ⟨hsc, hns⟩ := hch c hc
    rcases mem_scrub hsc with hsp | ⟨hkept, hlow⟩
    · rw [hsp] at hns; cases hns
    · exact ⟨hkept, hns, toLower_mem_fix hlow⟩
  have hA : lowerText (joinWords out) = joinWords out := by
    refine map_id_on fun c hc => ?_
    rcases mem_joinWords hc with rfl | ⟨w, hw, hcw⟩
    · decide
    · exact ((hfacts w hw).2 c hcw).2.2
  have hB : scrub (joinWords out) = joinWords out := by
    refine map_id_on fun c hc => ?_
    rcases mem_joinWords hc with rfl | ⟨w, hw, hcw⟩
    · decide
    · rw [if_pos]
      rw [((hfacts w hw).2 c hcw).1]
      simp
  have hC : tokenize_korean (lowerText (joinWords out)) = out := by
    rw [hA]
    unfold tokenize_korean
    rw [hB]
    exact splitWs_joinWords fun w hw =>
      ⟨(hfacts w hw).1, fun c hc => ((hfacts w hw).2 c hc).2.1⟩
  have hD : out.filter eligibleTok = out :=
    List.filter_eq_self.mpr fun w hw => (hmem w hw).1
  have hE : freqListOf out = out.map fun w => (w, 1) :=
    freqListOf_nodup (top_keywords_nodup text k)
  have htk2 : top_keywords (joinWords out) k =
      ((List.insertionSort keyRel
        (freqListOf ((tokenize_korean (lowerText (joinWords out))).filter
          eligibleTok))).take k).map Prod.fst := rfl
  rw [htk2, hC, hD, hE]
  have hlen2 : (List.insertionSort keyRel (out.map fun w => (w, 1))).length =
      out.length := by
    rw [(List.perm_insertionSort keyRel _).length_eq, List.length_map]
  rw [List.take_of_length_le (by rw [hlen2]; exact top_keywords_len text k)]
  have hp := (List.perm_insertionSort keyRel (out.map fun w => (w, 1))).map Prod.fst
  have hid : (out.map fun w => (w, 1)).map Prod.fst = out := by
    rw [List.map_map]
    exact map_id_on fun c _ => rfl
  rw [hid] at hp
  exact hp

/-- Prefix testing only looks at the first `|p|` elements, so a tail beyond
a longer candidate is irrelevant. -/
theorem isPrefixOf_append_of_le {α : Type} [BEq α] (p q t : List α)
    (h : p.length ≤ q.length) : p.isPrefixOf (q ++ t) = p.isPrefixOf q := by
  induction p generalizing q with
  | nil => simp
  | cons a as ih =>
    cases q with
    | nil => simp at h
    | cons b bs =>
      simp only [List.cons_append, List.isPrefixOf_cons₂]
      rw [ih bs (by simpa using h)]

/-- Counting a satisfied head. -/
theorem countP_cons_true {α : Type} {p : α → Bool} {a : α} (h : p a = true)
    (l : List α) : List.countP p (a :: l) = List.countP p l + 1 := by
  rw [List.countP_cons, h]
  simp

/-- Counting an unsatisfied head. -/
theorem countP_cons_false {α : Type} {p : α → Bool} {a : α} (h : p a = false)
    (l : List α) : List.countP p (a :: l) = List.countP p l := by
  rw [List.countP_cons, h]
  simp

/-- Every chapter block of the script contains exactly one chapter header
line, whatever the chapter label dispatches to. -/
theorem countP_chapter_block (speaker opener title : Text) (idx : ℕ) (ch : Text) :
    (chapter_block speaker opener title idx ch).countP chapterHeaderLine = 1 := by
  have hhead : chapterHeaderLine
      ("\n### 챕터 ".data ++ (toString idx).data ++ ". ".data ++ ch) = true := by
    unfold chapterHeaderLine
    rw [List.append_assoc, List.append_assoc,
      isPrefixOf_append_of_le "\n### 챕터".data "\n### 챕터 ".data
        ((toString idx).data ++ (". ".data ++ ch)) (by decide)]
    decide
  have hnarr : ∀ s : Text, chapterHeaderLine ("내레이션: (".data ++ s) = false := by
    intro s
    unfold chapterHeaderLine
    rw [isPrefixOf_append_of_le "\n### 챕터".data "내레이션: (".data s (by decide)]
    decide
  unfold chapter_block
  split_ifs
  all_goals rw [countP_cons_true hhead]
  · simp only [List.append_assoc]
    rw [countP_cons_false (hnarr _)]
    decide
  · decide
  · decide
  · decide
  · decide
  · decide

/-- A join starting from a non-empty word is non-empty. -/
theorem joinWith_cons_ne_nil (sep w : Text) (ws : List Text) (hw : w ≠ []) :
    joinWith sep (w :: ws) ≠ [] := by
  cases ws with
  | nil => simpa [joinWith] using hw
  | cons v vs =>
    have h : joinWith sep (w :: v :: vs) = w ++ sep ++ joinWith sep (v :: vs) := by
      simp [joinWith]
    rw [h]
    exact List.append_ne_nil_of_left_ne_nil (List.append_ne_nil_of_left_ne_nil hw _) _

/-- C6: assembling a script from an empty chapter list falls back to the
fixed six-stage default outline: the result equals assembly over the
default outline, that outline has six entries, the emitted lines contain
exactly six chapter sections, and the script is never empty. -/
theorem C6_empty_chapters_default_outline (idea : Idea) (speaker style : Text) :
    build_script idea speaker [] style =
      generate_script idea speaker (auto_outline_from_idea idea.idea_title) style ∧
    (auto_outline_from_idea idea.idea_title).length = 6 ∧
    (script_lines idea speaker (auto_outline_from_idea idea.idea_title) style).countP
      chapterHeaderLine = 6 ∧
    build_script idea speaker [] style ≠ [] := by
  have h1 : ∀ s : Text, chapterHeaderLine ("# 최종 대본: ".data ++ s) = false := by
    intro s
    unfold chapterHeaderLine
    rw [isPrefixOf_append_of_le "\n### 챕터".data "# 최종 대본: ".data s (by decide)]
    decide
  have h2 : ∀ s : Text, chapterHeaderLine ("## 연출 톤: ".data ++ s) = false := by
    intro s
    unfold chapterHeaderLine
    rw [isPrefixOf_append_of_le "\n### 챕터".data "## 연출 톤: ".data s (by decide)]
    decide
  have h3 : ∀ s : Text, chapterHeaderLine ("## 화자 페르소나: ".data ++ s) = false := by
    intro s
    unfold chapterHeaderLine
    rw [isPrefixOf_append_of_le "\n### 챕터".data "## 화자 페르소나: ".data s (by decide)]
    decide
  have h4 : ∀ s : Text, chapterHeaderLine ("## 로그라인: ".data ++ s) = false := by
    intro s
    unfold chapterHeaderLine
    rw [isPrefixOf_append_of_le "\n### 챕터".data "## 로그라인: ".data s (by decide)]
    decide
  refine ⟨rfl, rfl, ?_, ?_⟩
  · unfold script_lines
    rw [List.countP_append]
    have hhd : List.countP chapterHeaderLine
        ["# 최종 대본: ".data ++ idea.idea_title ++ "\n".data,
         "## 연출 톤: ".data ++ style,
         "## 화자 페르소나: ".data ++ speaker,
         "## 로그라인: ".data ++ idea.logline ++ "\n".data] = 0 := by
      simp only [List.append_assoc]
      rw [countP_cons_false (h1 _), countP_cons_false (h2 _),
        countP_cons_false (h3 _), countP_cons_false (h4 _), List.countP_nil]
    rw [hhd]
    have henum : List.enumFrom 1 (auto_outline_from_idea idea.idea_title) =
        [(1, "Hook(문제 제기/약속)".data), (2, "컨텍스트(대상/조건 명시)".data),
         (3, "본 실험/전개(파트1)".data), (4, "본 실험/전개(파트2)".data),
         (5, "결과/교훈".data), (6, "CTA(구독/댓글 유도)".data)] := rfl
    rw [henum]
    simp only [List.flatMap_cons, List.flatMap_nil, List.countP_append,
      List.countP_nil, countP_chapter_block]
  · obtain ⟨r, hr⟩ : ∃ r, script_lines idea speaker
        (auto_outline_from_idea idea.idea_title) style =
        ("# 최종 대본: ".data ++ idea.idea_title ++ "\n".data) :: r := ⟨_, rfl⟩
    have hb : build_script idea speaker [] style =
        joinWith "\n".data (script_lines idea speaker
          (auto_outline_from_idea idea.idea_title) style) := rfl
    rw [hb, hr]
    refine joinWith_cons_ne_nil _ _ _ ?_
    exact List.append_ne_nil_of_right_ne_nil _ (by decide)
